import Mathlib

/-!
Shallow embedding of the chess rules engine in `chess_pygame_ai.py`:
board representation, pseudo-legal move generation, move application with
auto-promotion, the terminal-state check, and the greedy-capture opponent
policy.  The board is the source's 8×8 list of one-character cells
(uppercase = White, lowercase = Black, '.' = empty); a move is the source's
tuple (r1, c1, r2, c2).  Python ints are embedded as `Int`.  Cell reads in
the source always happen under an `in_bounds` guard or inside a
`range(8)` loop, so the total accessor `cell` (out-of-range reads default
to '.') agrees with the source on every access the source performs.
-/

namespace Chess

abbrev Board := List (List Char)

abbrev Move := Int × Int × Int × Int

def ROWS : Int := 8

def COLS : Int := 8

/-- Initial chess board, rows top (Black) to bottom (White), from `new_board`. -/
def new_board : Board :=
  [ "rnbqkbnr".toList
  , "pppppppp".toList
  , "........".toList
  , "........".toList
  , "........".toList
  , "........".toList
  , "PPPPPPPP".toList
  , "RNBQKBNR".toList ]

def in_bounds (r c : Int) : Bool :=
  decide (0 ≤ r ∧ r < ROWS ∧ 0 ≤ c ∧ c < COLS)

def is_white (piece : Char) : Bool := piece.isUpper

def is_black (piece : Char) : Bool := piece.isLower

def side_of (piece : Char) : Option Char :=
  if piece = '.' then none
  else if is_white piece then some 'w' else some 'b'

/-- Read `board[r][c]`; '.' when out of range (the source only reads in range). -/
def cell (board : Board) (r c : Int) : Char :=
  (board.getD r.toNat []).getD c.toNat '.'

/-- Write `board[r][c] := v` on a fresh copy (`List.set` is non-mutating). -/
def setCell (board : Board) (r c : Int) (v : Char) : Board :=
  board.set r.toNat ((board.getD r.toNat []).set c.toNat v)

def gen_pawn (board : Board) (r c : Int) (side : Char) : List Move :=
  let dir : Int := if side = 'w' then -1 else 1
  let start_row : Int := if side = 'w' then 6 else 1
  let r1 := r + dir
  let pushes : List Move :=
    if in_bounds r1 c ∧ cell board r1 c = '.' then
      let r2 := r + 2 * dir
      if r = start_row ∧ in_bounds r2 c ∧ cell board r2 c = '.' ∧ cell board r1 c = '.' then
        [(r, c, r1, c), (r, c, r2, c)]
      else [(r, c, r1, c)]
    else []
  let captures : List Move :=
    ([-1, 1] : List Int).filterMap fun dc =>
      let cc := c + dc
      let rr := r + dir
      if in_bounds rr cc then
        let target := cell board rr cc
        if target ≠ '.' ∧ (side_of target).isSome ∧ side_of target ≠ some side then
          some (r, c, rr, cc)
        else none
      else none
  pushes ++ captures

def knight_jumps : List (Int × Int) :=
  [(2, 1), (2, -1), (-2, 1), (-2, -1), (1, 2), (1, -2), (-1, 2), (-1, -2)]

def gen_knight (board : Board) (r c : Int) (side : Char) : List Move :=
  knight_jumps.filterMap fun d =>
    let rr := r + d.1
    let cc := c + d.2
    if in_bounds rr cc then
      let target := cell board rr cc
      if target = '.' ∨ side_of target ≠ some side then some (r, c, rr, cc) else none
    else none

/-- One ray of the source's `slide_moves` while-loop.  The fuel 8 bounds the
number of iterations: every direction moves one coordinate by ±1 each step,
so at most 8 successive positions can satisfy `in_bounds`. -/
def slide_ray (board : Board) (r c : Int) (side : Char) (dr dc : Int) :
    Nat → Int → Int → List Move
  | 0, _, _ => []
  | fuel + 1, rr, cc =>
    if in_bounds rr cc then
      let target := cell board rr cc
      if target = '.' then
        (r, c, rr, cc) :: slide_ray board r c side dr dc fuel (rr + dr) (cc + dc)
      else if side_of target ≠ some side then [(r, c, rr, cc)]
      else []
    else []

def slide_moves (board : Board) (r c : Int) (side : Char)
    (directions : List (Int × Int)) : List Move :=
  directions.flatMap fun d => slide_ray board r c side d.1 d.2 8 (r + d.1) (c + d.2)

def gen_bishop (board : Board) (r c : Int) (side : Char) : List Move :=
  slide_moves board r c side [(1, 1), (1, -1), (-1, 1), (-1, -1)]

def gen_rook (board : Board) (r c : Int) (side : Char) : List Move :=
  slide_moves board r c side [(1, 0), (-1, 0), (0, 1), (0, -1)]

def gen_queen (board : Board) (r c : Int) (side : Char) : List Move :=
  slide_moves board r c side
    [(1, 1), (1, -1), (-1, 1), (-1, -1), (1, 0), (-1, 0), (0, 1), (0, -1)]

def gen_king (board : Board) (r c : Int) (side : Char) : List Move :=
  (([-1, 0, 1] : List Int).flatMap fun dr =>
    ([-1, 0, 1] : List Int).filterMap fun dc =>
      if dr = 0 ∧ dc = 0 then none
      else
        let rr := r + dr
        let cc := c + dc
        if in_bounds rr cc then
          let target := cell board rr cc
          if target = '.' ∨ side_of target ≠ some side then some (r, c, rr, cc) else none
        else none)

/-- The body of `generate_moves` for one scanned square (r, c). -/
def square_moves (board : Board) (r c : Int) (side : Char) : List Move :=
  let piece := cell board r c
  if piece = '.' then []
  else if side = 'w' ∧ ¬ is_white piece then []
  else if side = 'b' ∧ ¬ is_black piece then []
  else
    let p := piece.toLower
    if p = 'p' then gen_pawn board r c side
    else if p = 'n' then gen_knight board r c side
    else if p = 'b' then gen_bishop board r c side
    else if p = 'r' then gen_rook board r c side
    else if p = 'q' then gen_queen board r c side
    else if p = 'k' then gen_king board r c side
    else []

def generate_moves (board : Board) (side : Char) : List Move :=
  (List.range 8).flatMap fun r =>
    (List.range 8).flatMap fun c =>
      square_moves board (r : Int) (c : Int) side

def apply_move (board : Board) (move : Move) : Board :=
  let piece := cell board move.1 move.2.1
  let new_b := setCell (setCell board move.1 move.2.1 '.') move.2.2.1 move.2.2.2 piece
  -- the source's two promotion `if`s are mutually exclusive (piece is one char)
  if piece = 'P' ∧ move.2.2.1 = 0 then setCell new_b move.2.2.1 move.2.2.2 'Q'
  else if piece = 'p' ∧ move.2.2.1 = ROWS - 1 then setCell new_b move.2.2.1 move.2.2.2 'q'
  else new_b

def has_moves (board : Board) (side : Char) : Bool :=
  (generate_moves board side).length > 0

/-- The `VALUES` dict; keys outside the 12 piece characters raise in the
source and are mapped to 0 here (never reached on a well-formed board). -/
def VALUES (piece : Char) : Int :=
  if piece = 'K' ∨ piece = 'k' then 0
  else if piece = 'Q' ∨ piece = 'q' then 9
  else if piece = 'R' ∨ piece = 'r' then 5
  else if piece = 'B' ∨ piece = 'b' then 3
  else if piece = 'N' ∨ piece = 'n' then 3
  else if piece = 'P' ∨ piece = 'p' then 1
  else 0

/-- The per-move score in `ai_choose_move`'s loop. -/
def move_score (board : Board) (m : Move) : Int :=
  let target := cell board m.2.2.1 m.2.2.2
  if target ≠ '.' then VALUES target else 0

/-- One iteration of `ai_choose_move`'s best-move accumulation loop. -/
def best_step (board : Board) (acc : List Move × Int) (m : Move) : List Move × Int :=
  let score := move_score board m
  if score > acc.2 then ([m], score)
  else if score = acc.2 then (acc.1 ++ [m], acc.2)
  else acc

/-- `ai_choose_move`'s loop: fold `best_step` from `([], -999)`. -/
def best_fold (board : Board) (acc : List Move × Int) (moves : List Move) :
    List Move × Int :=
  moves.foldl (best_step board) acc

/-- `ai_choose_move`, with `random.choice` modelled by an arbitrary pick
index: `pick % len` ranges over exactly the indices the source can draw. -/
def ai_choose_move (board : Board) (side : Char) (pick : Nat) : Option Move :=
  let moves := generate_moves board side
  if moves.isEmpty then none
  else
    let best_moves := (best_fold board ([], -999) moves).1
    if best_moves.isEmpty then moves[pick % moves.length]?
    else best_moves[pick % best_moves.length]?

/-- Well-formed board: the 8×8 shape with cells drawn from the 12 piece
characters or '.', as every board reachable in the program is. -/
def pieceChars : List Char := "KQRBNPkqrbnp".toList

def WF (board : Board) : Bool :=
  board.length == 8 &&
    board.all fun row =>
      row.length == 8 && row.all fun ch => ch == '.' || pieceChars.contains ch

/-- A board with a White pawn on (4, 4) able to capture a Black queen on
(3, 3): used to exercise the greedy-capture policy. -/
def queenCapture : Board :=
  [ "........".toList
  , "........".toList
  , "........".toList
  , "...q....".toList
  , "....P...".toList
  , "........".toList
  , "........".toList
  , "........".toList ]

/-- Number of non-empty cells of a board (the "population"). -/
def popCount (b : Board) : Nat :=
  (b.map fun row => row.countP fun ch => decide (ch ≠ '.')).sum

/-- The side opposite to a side character. -/
def opposite (s : Char) : Char := if s = 'w' then 'b' else 'w'

/-- The destination of move `m` is in bounds and its cell on `b` is empty or
held by the side opposite to `s`. -/
def DestOk (b : Board) (s : Char) (m : Move) : Prop :=
  in_bounds m.2.2.1 m.2.2.2 = true ∧
    (cell b m.2.2.1 m.2.2.2 = '.' ∨ side_of (cell b m.2.2.1 m.2.2.2) = some (opposite s))

/-- A board whose White force is a king at (1, 1) boxed in by eight White
pawns; the three pawns on row 0 have no forward square, so no White piece
has a pseudo-legal move. -/
def kingLocked : Board :=
  [ "PPP.....".toList
  , "PKP.....".toList
  , "PPP.....".toList
  , "........".toList
  , "........".toList
  , "........".toList
  , "........".toList
  , "........".toList ]

/-- A board whose White force is a king at (4, 4) boxed in by eight White
pawns; the boxing pawns themselves can still push forward. -/
def kingFree : Board :=
  [ "........".toList
  , "........".toList
  , "........".toList
  , "...PPP..".toList
  , "...PKP..".toList
  , "...PPP..".toList
  , "........".toList
  , "........".toList ]

/-- The eight neighbours of the boxed king of `kingLocked`. -/
def kingNeighbors : List (Int × Int) :=
  [(0, 0), (0, 1), (0, 2), (1, 0), (1, 2), (2, 0), (2, 1), (2, 2)]

/-- C1 (counterexample): after White plays ((6,4),(4,4)) from the initial
board, `generate_moves` for Black contains NO move with origin (0, 5): the
Black bishop on (0, 5) is still blocked by its own pawns on (1, 4) and
(1, 6), so the claimed membership fails. -/
theorem C1_counterexample :
    ((generate_moves (apply_move new_board (6, 4, 4, 4)) 'b').all
      fun m => !(m.1 == 0 && m.2.1 == 5)) = true := by decide

/-- C1 (amended): after White plays ((6,4),(4,4)) from the initial board,
it is `generate_moves` for WHITE that gains a bishop move from (7, 5) along
the now-open diagonal (e.g. (7,5) → (6,4)), while the Black move list still
has no move with origin (0, 5). -/
theorem C1_amended_white_bishop_opens :
    (7, 5, 6, 4) ∈ generate_moves (apply_move new_board (6, 4, 4, 4)) 'w' ∧
    ((generate_moves (apply_move new_board (6, 4, 4, 4)) 'b').all
      fun m => !(m.1 == 0 && m.2.1 == 5)) = true := by
  constructor
  · decide
  · decide

/-- C2: on the initial board each side has exactly 20 pseudo-legal moves:
8 single pawn pushes, 8 double pawn pushes and 4 knight moves (for White,
pawn rows 6 → 5 and 6 → 4 and knight origins on row 7; for Black, rows
1 → 2 and 1 → 3 and knight origins on row 0). -/
theorem C2_initial_move_counts :
    (generate_moves new_board 'w').length = 20 ∧
    (generate_moves new_board 'b').length = 20 ∧
    ((generate_moves new_board 'w').filter fun m => m.1 == 6 && m.2.2.1 == 5).length = 8 ∧
    ((generate_moves new_board 'w').filter fun m => m.1 == 6 && m.2.2.1 == 4).length = 8 ∧
    ((generate_moves new_board 'w').filter fun m => m.1 == 7).length = 4 ∧
    ((generate_moves new_board 'b').filter fun m => m.1 == 1 && m.2.2.1 == 2).length = 8 ∧
    ((generate_moves new_board 'b').filter fun m => m.1 == 1 && m.2.2.1 == 3).length = 8 ∧
    ((generate_moves new_board 'b').filter fun m => m.1 == 0).length = 4 := by
  refine ⟨by decide, by decide, by decide, by decide, by decide, by decide, by decide, by decide⟩

/-- C4 (counterexample): `kingFree` is a board whose queried side is a lone
king surrounded on all 8 neighbouring cells by friendly pieces (the king has
no empty or enemy-occupied neighbour), yet `has_moves` returns true — the
surrounding pawns themselves have pushes — refuting the claim that
`has_moves` is false for every such board. -/
theorem C4_counterexample : has_moves kingFree 'w' = true := by decide

/-- C4 (amended): `has_moves` is false for a king surrounded on all 8
neighbours by friendly pieces only when the surrounding pieces themselves
have no moves, as on `kingLocked` (White king at (1,1) boxed by pawns whose
row-0 members have no forward square); and it flips to true as soon as any
one of the 8 neighbouring cells is vacated. -/
theorem C4_amended_locked_king :
    has_moves kingLocked 'w' = false ∧
    (kingNeighbors.all fun d => has_moves (setCell kingLocked d.1 d.2 '.') 'w') = true := by
  refine ⟨by decide, by decide⟩

lemma side_of_of_ne (s t : Char) (hs : s = 'w' ∨ s = 'b') (ht : t ≠ '.')
    (hne : side_of t ≠ some s) : side_of t = some (opposite s) := by
  unfold side_of at *
  rw [if_neg ht] at hne ⊢
  rcases hs with h | h <;> subst h <;>
    by_cases hw : is_white t = true <;>
      simp [hw, opposite] at hne ⊢

lemma destOk_of_guard (b : Board) (s : Char) (r c rr cc : Int)
    (hs : s = 'w' ∨ s = 'b') (hin : in_bounds rr cc = true)
    (hok : cell b rr cc = '.' ∨ side_of (cell b rr cc) ≠ some s) :
    DestOk b s (r, c, rr, cc) := by
  refine ⟨hin, ?_⟩
  by_cases hdot : cell b rr cc = '.'
  · exact Or.inl hdot
  · rcases hok with h | h
    · exact Or.inl h
    · exact Or.inr (side_of_of_ne s _ hs hdot h)

lemma mem_gen_pawn (b : Board) (r c : Int) (s : Char) (hs : s = 'w' ∨ s = 'b') :
    ∀ m ∈ gen_pawn b r c s, DestOk b s m ∧ m.1 = r ∧ m.2.1 = c := by
  intro m hm
  unfold gen_pawn at hm
  simp only [List.mem_append, List.mem_filterMap] at hm
  generalize (if s = 'w' then (-1 : Int) else 1) = dir at hm
  generalize (if s = 'w' then (6 : Int) else 1) = start_row at hm
  rcases hm with hm | ⟨dc, hdc, hd⟩
  · split at hm
    · next hP =>
      split at hm
      · next hQ =>
        simp only [List.mem_cons, List.not_mem_nil, or_false] at hm
        rcases hm with rfl | rfl
        · exact ⟨⟨hP.1, Or.inl hP.2⟩, rfl, rfl⟩
        · exact ⟨⟨hQ.2.1, Or.inl hQ.2.2.1⟩, rfl, rfl⟩
      · simp only [List.mem_cons, List.not_mem_nil, or_false] at hm
        rcases hm with rfl
        exact ⟨⟨hP.1, Or.inl hP.2⟩, rfl, rfl⟩
    · exact absurd hm (List.not_mem_nil m)
  · split at hd
    · next hin =>
      split at hd
      · next hok =>
        obtain rfl := Option.some.inj hd
        exact ⟨⟨hin, Or.inr (side_of_of_ne s _ hs hok.1 hok.2.2)⟩, rfl, rfl⟩
      · exact absurd hd (by simp)
    · exact absurd hd (by simp)


lemma mem_gen_knight (b : Board) (r c : Int) (s : Char) (hs : s = 'w' ∨ s = 'b') :
    ∀ m ∈ gen_knight b r c s, DestOk b s m ∧ m.1 = r ∧ m.2.1 = c := by
  intro m hm
  unfold gen_knight at hm
  simp only [List.mem_filterMap] at hm
  obtain ⟨d, _, hd⟩ := hm
  split at hd
  · next hin =>
    split at hd
    · next hok =>
      obtain rfl := Option.some.inj hd
      exact ⟨destOk_of_guard b s r c _ _ hs hin hok, rfl, rfl⟩
    · exact absurd hd (by simp)
  · exact absurd hd (by simp)

lemma mem_slide_ray (b : Board) (r c : Int) (s : Char) (dr dc : Int)
    (hs : s = 'w' ∨ s = 'b') :
    ∀ fuel rr cc, ∀ m ∈ slide_ray b r c s dr dc fuel rr cc,
      DestOk b s m ∧ m.1 = r ∧ m.2.1 = c := by
  intro fuel
  induction fuel with
  | zero => intro rr cc m hm; simp [slide_ray] at hm
  | succ n ih =>
    intro rr cc m hm
    unfold slide_ray at hm
    dsimp only at hm
    split at hm
    · next hin =>
      split at hm
      · next hdot =>
        rcases List.mem_cons.mp hm with h | h
        · subst h; exact ⟨⟨hin, Or.inl hdot⟩, rfl, rfl⟩
        · exact ih _ _ _ h
      · next hdot =>
        split at hm
        · next hne =>
          rcases List.mem_singleton.mp hm with rfl
          exact ⟨⟨hin, Or.inr (side_of_of_ne s _ hs hdot hne)⟩, rfl, rfl⟩
        · exact absurd hm (List.not_mem_nil m)
    · exact absurd hm (List.not_mem_nil m)

lemma mem_slide_moves (b : Board) (r c : Int) (s : Char)
    (dirs : List (Int × Int)) (hs : s = 'w' ∨ s = 'b') :
    ∀ m ∈ slide_moves b r c s dirs, DestOk b s m ∧ m.1 = r ∧ m.2.1 = c := by
  intro m hm
  unfold slide_moves at hm
  simp only [List.mem_flatMap] at hm
  obtain ⟨d, _, hd⟩ := hm
  exact mem_slide_ray b r c s d.1 d.2 hs 8 _ _ m hd

lemma mem_gen_king (b : Board) (r c : Int) (s : Char) (hs : s = 'w' ∨ s = 'b') :
    ∀ m ∈ gen_king b r c s, DestOk b s m ∧ m.1 = r ∧ m.2.1 = c := by
  intro m hm
  unfold gen_king at hm
  simp only [List.mem_flatMap, List.mem_filterMap] at hm
  obtain ⟨dr, _, dc, _, hd⟩ := hm
  split at hd
  · exact absurd hd (by simp)
  · split at hd
    · next hin =>
      split at hd
      · next hok =>
        obtain rfl := Option.some.inj hd
        exact ⟨destOk_of_guard b s r c _ _ hs hin hok, rfl, rfl⟩
      · exact absurd hd (by simp)
    · exact absurd hd (by simp)

lemma mem_square_moves (b : Board) (r c : Int) (s : Char) (hs : s = 'w' ∨ s = 'b') :
    ∀ m ∈ square_moves b r c s, DestOk b s m ∧ m.1 = r ∧ m.2.1 = c := by
  intro m hm
  unfold square_moves at hm
  dsimp only at hm
  split at hm
  · exact absurd hm (List.not_mem_nil m)
  split at hm
  · exact absurd hm (List.not_mem_nil m)
  split at hm
  · exact absurd hm (List.not_mem_nil m)
  split at hm
  · exact mem_gen_pawn b r c s hs m hm
  split at hm
  · exact mem_gen_knight b r c s hs m hm
  split at hm
  · exact mem_slide_moves b r c s _ hs m hm
  split at hm
  · exact mem_slide_moves b r c s _ hs m hm
  split at hm
  · exact mem_slide_moves b r c s _ hs m hm
  split at hm
  · exact mem_gen_king b r c s hs m hm
  · exact absurd hm (List.not_mem_nil m)

/-- C5: every move produced by `generate_moves b s` (for a real side
`s ∈ {w, b}`) has in-bounds origin and destination, and the destination
cell of `b` is empty or held by the side opposite to `s`, never by `s`
itself. -/
theorem C5_generated_moves_sound (b : Board) (s : Char) (hs : s = 'w' ∨ s = 'b') :
    ∀ m ∈ generate_moves b s,
      in_bounds m.1 m.2.1 = true ∧ in_bounds m.2.2.1 m.2.2.2 = true ∧
        (cell b m.2.2.1 m.2.2.2 = '.' ∨
          side_of (cell b m.2.2.1 m.2.2.2) = some (opposite s)) := by
  intro m hm
  unfold generate_moves at hm
  simp only [List.mem_flatMap, List.mem_range] at hm
  obtain ⟨r, hr, c, hc, hm⟩ := hm
  obtain ⟨⟨hin, hcell⟩, h1, h2⟩ := mem_square_moves b r c s hs m hm
  refine ⟨?_, hin, hcell⟩
  rw [h1, h2]
  simp only [in_bounds, ROWS, COLS, decide_eq_true_eq]
  omega

/-- C5 witness at the initial board, side White, move (6,0,5,0). -/
theorem C5_witness :
    in_bounds (6 : Int) 0 = true ∧ in_bounds (5 : Int) 0 = true ∧
      (cell new_board 5 0 = '.' ∨ side_of (cell new_board 5 0) = some (opposite 'w')) :=
  C5_generated_moves_sound new_board 'w' (Or.inl rfl) (6, 0, 5, 0) (by decide)

lemma values_bounds (p : Char) : 0 ≤ VALUES p ∧ VALUES p ≤ 9 := by
  unfold VALUES
  split_ifs <;> norm_num

lemma move_score_bounds (b : Board) (m : Move) :
    0 ≤ move_score b m ∧ move_score b m ≤ 9 := by
  unfold move_score
  dsimp only
  split
  · exact values_bounds _
  · norm_num

lemma best_step_scores (b : Board) (acc : List Move × Int) (m : Move)
    (h : ∀ x ∈ acc.1, move_score b x = acc.2) :
    ∀ x ∈ (best_step b acc m).1, move_score b x = (best_step b acc m).2 := by
  unfold best_step
  dsimp only
  split
  · intro x hx
    rcases List.mem_singleton.mp hx with rfl
    rfl
  · split
    · next heq =>
      intro x hx
      rcases List.mem_append.mp hx with h1 | h1
      · exact h x h1
      · rcases List.mem_singleton.mp h1 with rfl
        exact heq
    · exact h

lemma best_fold_scores (b : Board) (moves : List Move) :
    ∀ acc, (∀ x ∈ acc.1, move_score b x = acc.2) →
      ∀ x ∈ (best_fold b acc moves).1, move_score b x = (best_fold b acc moves).2 := by
  induction moves with
  | nil => intro acc h; exact h
  | cons m rest ih =>
    intro acc h
    exact ih _ (best_step_scores b acc m h)

lemma best_step_subset (b : Board) (acc : List Move × Int) (m : Move)
    (S : List Move) (h : ∀ x ∈ acc.1, x ∈ S) (hm : m ∈ S) :
    ∀ x ∈ (best_step b acc m).1, x ∈ S := by
  unfold best_step
  dsimp only
  split
  · intro x hx
    rcases List.mem_singleton.mp hx with rfl
    exact hm
  · split
    · intro x hx
      rcases List.mem_append.mp hx with h1 | h1
      · exact h x h1
      · rcases List.mem_singleton.mp h1 with rfl
        exact hm
    · exact h

lemma best_fold_subset (b : Board) (moves : List Move) (S : List Move)
    (hS : ∀ x ∈ moves, x ∈ S) :
    ∀ acc, (∀ x ∈ acc.1, x ∈ S) →
      ∀ x ∈ (best_fold b acc moves).1, x ∈ S := by
  induction moves with
  | nil => intro acc h; exact h
  | cons m rest ih =>
    intro acc h
    exact ih (fun x hx => hS x (List.mem_cons_of_mem m hx)) _
      (best_step_subset b acc m S h (hS m (List.mem_cons_self m rest)))

lemma best_step_ne (b : Board) (acc : List Move × Int) (m : Move)
    (h : acc.1 ≠ []) : (best_step b acc m).1 ≠ [] := by
  unfold best_step
  dsimp only
  split
  · simp
  · split
    · simp
    · exact h

lemma best_fold_ne (b : Board) (moves : List Move) :
    ∀ acc : List Move × Int, acc.1 ≠ [] → (best_fold b acc moves).1 ≠ [] := by
  induction moves with
  | nil => intro acc h; exact h
  | cons m rest ih =>
    intro acc h
    exact ih _ (best_step_ne b acc m h)

lemma best_fold_nonempty (b : Board) (moves : List Move) (h : moves ≠ []) :
    (best_fold b ([], -999) moves).1 ≠ [] := by
  match moves, h with
  | m :: rest, _ =>
    have h1 : best_step b ([], -999) m = ([m], move_score b m) := by
      unfold best_step
      dsimp only
      rw [if_pos]
      have := (move_score_bounds b m).1
      omega
    show (best_fold b (best_step b ([], -999) m) rest).1 ≠ []
    rw [h1]
    exact best_fold_ne b rest _ (by simp)

lemma best_step_mono (b : Board) (acc : List Move × Int) (m : Move) :
    acc.2 ≤ (best_step b acc m).2 := by
  unfold best_step
  dsimp only
  split
  · next hgt => omega
  · split
    · omega
    · omega

lemma best_fold_mono (b : Board) (moves : List Move) :
    ∀ acc, acc.2 ≤ (best_fold b acc moves).2 := by
  induction moves with
  | nil => intro acc; exact le_refl _
  | cons m rest ih =>
    intro acc
    exact le_trans (best_step_mono b acc m) (ih _)

lemma best_step_ge (b : Board) (acc : List Move × Int) (m : Move) :
    move_score b m ≤ (best_step b acc m).2 := by
  unfold best_step
  dsimp only
  split
  · omega
  · split
    · next heq => omega
    · next hgt heq => omega

lemma best_fold_ge (b : Board) (moves : List Move) :
    ∀ acc, ∀ m ∈ moves, move_score b m ≤ (best_fold b acc moves).2 := by
  induction moves with
  | nil => intro acc m hm; exact absurd hm (List.not_mem_nil m)
  | cons m0 rest ih =>
    intro acc m hm
    rcases List.mem_cons.mp hm with rfl | hm
    · exact le_trans (best_step_ge b acc m) (best_fold_mono b rest _)
    · exact ih _ m hm

lemma ai_choose_move_some (b : Board) (s : Char) (pick : Nat)
    (hne : generate_moves b s ≠ []) :
    ∃ m, ai_choose_move b s pick = some m ∧
      m ∈ (best_fold b ([], -999) (generate_moves b s)).1 := by
  unfold ai_choose_move
  dsimp only
  rw [if_neg (by simpa using hne)]
  have hbne := best_fold_nonempty b (generate_moves b s) hne
  rw [if_neg (by simpa using hbne)]
  set best := (best_fold b ([], -999) (generate_moves b s)).1 with hbest
  have hlt : pick % best.length < best.length :=
    Nat.mod_lt _ (List.length_pos.mpr hbne)
  refine ⟨best[pick % best.length], ?_, List.getElem_mem hlt⟩
  exact List.getElem?_eq_getElem hlt


/-- C3: whenever the side to move has at least one pseudo-legal move on a
well-formed board, every move `ai_choose_move` can return (for any random
pick) is in the generated move list and maximizes, over that list, the
material value of the piece on the destination cell before the move; in
particular when a value-9 (Queen) capture is available the returned move
scores 9, and any move onto a King scores 0. -/
theorem C3_greedy_capture (b : Board) (s : Char) (pick : Nat)
    (_hwf : WF b = true) (hne : generate_moves b s ≠ []) :
    ∃ m, ai_choose_move b s pick = some m ∧ m ∈ generate_moves b s ∧
      (∀ m' ∈ generate_moves b s, move_score b m' ≤ move_score b m) ∧
      ((∃ q ∈ generate_moves b s, move_score b q = 9) → move_score b m = 9) ∧
      (∀ m' : Move, cell b m'.2.2.1 m'.2.2.2 = 'K' ∨ cell b m'.2.2.1 m'.2.2.2 = 'k' →
        move_score b m' = 0) := by
  obtain ⟨m, hm, hmem⟩ := ai_choose_move_some b s pick hne
  have hscore := best_fold_scores b (generate_moves b s) ([], -999) (by simp) m hmem
  have hsub := best_fold_subset b (generate_moves b s) (generate_moves b s)
      (fun x hx => hx) ([], -999) (by simp) m hmem
  refine ⟨m, hm, hsub, ?_, ?_, ?_⟩
  · intro m' hm'
    rw [hscore]
    exact best_fold_ge b (generate_moves b s) ([], -999) m' hm'
  · rintro ⟨q, hq, hq9⟩
    have h1 : (9 : Int) ≤ move_score b m := by
      rw [hscore, ← hq9]
      exact best_fold_ge b (generate_moves b s) ([], -999) q hq
    have h2 := (move_score_bounds b m).2
    omega
  · intro m' hk
    unfold move_score
    dsimp only
    rcases hk with h | h <;> rw [h] <;> decide

/-- C3 witness on a board where a White pawn can capture a Black queen. -/
theorem C3_witness :
    ∃ m, ai_choose_move queenCapture 'w' 0 = some m ∧ m ∈ generate_moves queenCapture 'w' ∧
      (∀ m' ∈ generate_moves queenCapture 'w', move_score queenCapture m' ≤ move_score queenCapture m) ∧
      ((∃ q ∈ generate_moves queenCapture 'w', move_score queenCapture q = 9) → move_score queenCapture m = 9) ∧
      (∀ m' : Move, cell queenCapture m'.2.2.1 m'.2.2.2 = 'K' ∨ cell queenCapture m'.2.2.1 m'.2.2.2 = 'k' →
        move_score queenCapture m' = 0) :=
  C3_greedy_capture queenCapture 'w' 0 (by decide) (by decide)

/-- C8: `ai_choose_move` returns none exactly when `generate_moves` is
empty, and any move it returns (for any random pick) is an element of
`generate_moves`. -/
theorem C8_choose_move_contract (b : Board) (s : Char) (pick : Nat) :
    (ai_choose_move b s pick = none ↔ generate_moves b s = []) ∧
    ∀ m, ai_choose_move b s pick = some m → m ∈ generate_moves b s := by
  constructor
  · constructor
    · intro h
      by_contra hne
      obtain ⟨m, hm, _⟩ := ai_choose_move_some b s pick hne
      rw [h] at hm
      exact Option.noConfusion hm
    · intro h
      unfold ai_choose_move
      dsimp only
      rw [if_pos (by simpa using h)]
  · intro m h
    by_cases hne : generate_moves b s = []
    · unfold ai_choose_move at h
      dsimp only at h
      rw [if_pos (by simpa using hne)] at h
      exact Option.noConfusion h
    · obtain ⟨m', hm', hmem⟩ := ai_choose_move_some b s pick hne
      rw [h] at hm'
      obtain rfl := Option.some.inj hm'
      exact best_fold_subset b (generate_moves b s) (generate_moves b s)
        (fun x hx => hx) ([], -999) (by simp) m hmem

set_option maxRecDepth 4000 in
/-- C8 witness: the move picked on the initial board for White is in the
generated move list. -/
theorem C8_witness : (6, 0, 5, 0) ∈ generate_moves new_board 'w' :=
  (C8_choose_move_contract new_board 'w' 0).2 (6, 0, 5, 0) (by decide)

lemma list_set_getElem_self {α : Type} (l : List α) (i : Nat) (h : i < l.length) :
    l.set i l[i] = l := by
  apply List.ext_getElem?
  intro n
  by_cases hn : i = n
  · subst hn
    rw [List.getElem?_set_self h, List.getElem?_eq_getElem h]
  · rw [List.getElem?_set_ne hn]

lemma in_bounds_toNat (r c : Int) (h : in_bounds r c = true) :
    r.toNat < 8 ∧ c.toNat < 8 := by
  unfold in_bounds at h
  simp only [ROWS, COLS, decide_eq_true_eq] at h
  omega

lemma wf_shape (b : Board) (h : WF b = true) :
    b.length = 8 ∧ ∀ i, i < 8 → (b.getD i []).length = 8 := by
  unfold WF at h
  simp only [Bool.and_eq_true, beq_iff_eq, List.all_eq_true] at h
  obtain ⟨hlen, hrows⟩ := h
  refine ⟨hlen, ?_⟩
  intro i hi
  have hib : i < b.length := by omega
  have hgd : b.getD i [] = b[i] := by
    rw [List.getD_eq_getElem?_getD, List.getElem?_eq_getElem hib, Option.getD_some]
  rw [hgd]
  exact (hrows b[i] (List.getElem_mem hib)).1

lemma wf_bounds (b : Board) (hwf : WF b = true) (r c : Int)
    (h : in_bounds r c = true) :
    r.toNat < b.length ∧ c.toNat < (b.getD r.toNat []).length := by
  obtain ⟨hlen, hrow⟩ := wf_shape b hwf
  obtain ⟨hr, hc⟩ := in_bounds_toNat r c h
  exact ⟨by omega, by rw [hrow r.toNat hr]; omega⟩

lemma cell_setCell_self (b : Board) (r c : Int) (v : Char)
    (hr : r.toNat < b.length) (hc : c.toNat < (b.getD r.toNat []).length) :
    cell (setCell b r c v) r c = v := by
  unfold cell setCell
  simp only [List.getD_eq_getElem?_getD] at hc ⊢
  rw [List.getElem?_set_self hr, Option.getD_some, List.getElem?_set_self hc,
    Option.getD_some]

lemma cell_setCell_ne (b : Board) (r c r' c' : Int) (v : Char)
    (h : r.toNat ≠ r'.toNat ∨ c.toNat ≠ c'.toNat) :
    cell (setCell b r c v) r' c' = cell b r' c' := by
  unfold cell setCell
  simp only [List.getD_eq_getElem?_getD]
  by_cases hrr : r.toNat = r'.toNat
  · have hcc : c.toNat ≠ c'.toNat := h.resolve_left (by simpa using hrr)
    rw [← hrr]
    by_cases hr : r.toNat < b.length
    · rw [List.getElem?_set_self hr, Option.getD_some, List.getElem?_set_ne hcc]
    · rw [List.set_eq_of_length_le (le_of_not_lt hr)]
  · rw [List.getElem?_set_ne hrr]

lemma length_setCell (b : Board) (r c : Int) (v : Char) :
    (setCell b r c v).length = b.length := by
  unfold setCell
  exact List.length_set b _ _

lemma row_length_setCell (b : Board) (r c : Int) (v : Char) (i : Nat) :
    ((setCell b r c v).getD i []).length = (b.getD i []).length := by
  unfold setCell
  simp only [List.getD_eq_getElem?_getD]
  by_cases hri : r.toNat = i
  · subst hri
    by_cases hr : r.toNat < b.length
    · rw [List.getElem?_set_self hr, Option.getD_some, List.length_set]
    · rw [List.set_eq_of_length_le (le_of_not_lt hr)]
  · rw [List.getElem?_set_ne hri]

lemma setCell_eq_self (b : Board) (r c : Int) (v : Char) (h : cell b r c = v) :
    setCell b r c v = b := by
  unfold cell at h
  unfold setCell
  by_cases hr : r.toNat < b.length
  · have hrow : b.getD r.toNat [] = b[r.toNat] := by
      rw [List.getD_eq_getElem?_getD, List.getElem?_eq_getElem hr, Option.getD_some]
    by_cases hc : c.toNat < (b.getD r.toNat []).length
    · have hv : (b.getD r.toNat [])[c.toNat] = v := by
        rw [← h]
        exact (List.getD_eq_getElem _ '.' hc).symm
      have hset : (b.getD r.toNat []).set c.toNat v = b.getD r.toNat [] := by
        rw [← hv]
        exact list_set_getElem_self _ _ hc
      rw [hset, hrow]
      exact list_set_getElem_self b r.toNat hr
    · rw [List.set_eq_of_length_le (le_of_not_lt hc), hrow]
      exact list_set_getElem_self b r.toNat hr
  · exact List.set_eq_of_length_le (le_of_not_lt hr)

lemma sum_set_nat (l : List Nat) (i : Nat) (a : Nat) (h : i < l.length) :
    (l.set i a).sum + l[i] = l.sum + a := by
  induction l generalizing i with
  | nil => simp at h
  | cons x xs ih =>
    cases i with
    | zero => simp [List.sum_cons]; omega
    | succ n =>
      have hn : n < xs.length := by simpa using h
      have := ih n hn
      simp only [List.set_cons_succ, List.sum_cons, List.getElem_cons_succ]
      omega

lemma countP_set_add (l : List Char) (i : Nat) (v : Char) (p : Char → Bool)
    (h : i < l.length) :
    (l.set i v).countP p + (if p l[i] then 1 else 0)
      = l.countP p + (if p v then 1 else 0) := by
  have hset := List.countP_set p l i v h
  have hle : (if p l[i] = true then 1 else 0) ≤ l.countP p := by
    split
    · next hp => exact List.countP_pos_iff.mpr ⟨l[i], List.getElem_mem h, hp⟩
    · omega
  split at hset <;> split at hset <;> simp_all

lemma popCount_setCell (b : Board) (r c : Int) (v : Char)
    (hr : r.toNat < b.length) (hc : c.toNat < (b.getD r.toNat []).length) :
    popCount (setCell b r c v) + (if cell b r c ≠ '.' then 1 else 0)
      = popCount b + (if v ≠ '.' then 1 else 0) := by
  unfold popCount setCell cell
  rw [List.map_set]
  have hmap : r.toNat < (b.map fun row => row.countP fun ch => decide (ch ≠ '.')).length := by
    simpa using hr
  have hA := sum_set_nat (b.map fun row => row.countP fun ch => decide (ch ≠ '.'))
    r.toNat (((b.getD r.toNat []).set c.toNat v).countP fun ch => decide (ch ≠ '.')) hmap
  have hrow : b.getD r.toNat [] = b[r.toNat] := by
    rw [List.getD_eq_getElem?_getD, List.getElem?_eq_getElem hr, Option.getD_some]
  have hgm : (b.map fun row => row.countP fun ch => decide (ch ≠ '.'))[r.toNat]
      = (b.getD r.toNat []).countP fun ch => decide (ch ≠ '.') := by
    rw [List.getElem_map, hrow]
  have hB := countP_set_add (b.getD r.toNat []) c.toNat v (fun ch => decide (ch ≠ '.')) hc
  have hcell : (b.getD r.toNat []).getD c.toNat '.' = (b.getD r.toNat [])[c.toNat] := by
    rw [List.getD_eq_getElem?_getD, List.getElem?_eq_getElem hc, Option.getD_some]
  rw [hgm] at hA
  rw [hcell]
  simp only [decide_eq_true_eq] at hA hB ⊢
  split at hB <;> split <;> simp_all <;> omega


lemma toNat_ne_of_ne (r1 c1 r2 c2 : Int) (h1 : in_bounds r1 c1 = true)
    (h2 : in_bounds r2 c2 = true) (hne : r1 ≠ r2 ∨ c1 ≠ c2) :
    r1.toNat ≠ r2.toNat ∨ c1.toNat ≠ c2.toNat := by
  unfold in_bounds at h1 h2
  simp only [ROWS, COLS, decide_eq_true_eq] at h1 h2
  rcases hne with h | h
  · left
    omega
  · right
    omega

/-- C6: on a well-formed board, applying an in-bounds move whose origin
holds a White pawn and whose destination row is 0 puts a White Queen on the
destination (whatever the origin row); symmetrically a Black pawn arriving
on row 7 becomes a Black Queen; in every other case the moved piece arrives
with kind and side unchanged. -/
theorem C6_promotion (b : Board) (r1 c1 r2 c2 : Int) (hwf : WF b = true)
    (_h1 : in_bounds r1 c1 = true) (h2 : in_bounds r2 c2 = true) :
    (cell b r1 c1 = 'P' ∧ r2 = 0 →
      cell (apply_move b (r1, c1, r2, c2)) r2 c2 = 'Q') ∧
    (cell b r1 c1 = 'p' ∧ r2 = ROWS - 1 →
      cell (apply_move b (r1, c1, r2, c2)) r2 c2 = 'q') ∧
    (¬(cell b r1 c1 = 'P' ∧ r2 = 0) ∧ ¬(cell b r1 c1 = 'p' ∧ r2 = ROWS - 1) →
      cell (apply_move b (r1, c1, r2, c2)) r2 c2 = cell b r1 c1) := by
  have hb2 := wf_bounds b hwf r2 c2 h2
  have hlen1 : r2.toNat < (setCell b r1 c1 '.').length := by
    rw [length_setCell]
    exact hb2.1
  have hrow1 : c2.toNat < ((setCell b r1 c1 '.').getD r2.toNat []).length := by
    rw [row_length_setCell]
    exact hb2.2
  have hlen2 : r2.toNat < (setCell (setCell b r1 c1 '.') r2 c2 (cell b r1 c1)).length := by
    rw [length_setCell]
    exact hlen1
  have hrow2 : c2.toNat <
      ((setCell (setCell b r1 c1 '.') r2 c2 (cell b r1 c1)).getD r2.toNat []).length := by
    rw [row_length_setCell]
    exact hrow1
  unfold apply_move
  dsimp only
  refine ⟨?_, ?_, ?_⟩
  · rintro ⟨hp, h0⟩
    rw [if_pos ⟨hp, h0⟩]
    exact cell_setCell_self _ r2 c2 'Q' hlen2 hrow2
  · rintro ⟨hp, h7⟩
    have hno : ¬(cell b r1 c1 = 'P' ∧ r2 = 0) := by
      rintro ⟨hp2, _⟩
      rw [hp] at hp2
      exact absurd hp2 (by decide)
    rw [if_neg hno, if_pos ⟨hp, h7⟩]
    exact cell_setCell_self _ r2 c2 'q' hlen2 hrow2
  · rintro ⟨hn1, hn2⟩
    rw [if_neg hn1, if_neg hn2]
    exact cell_setCell_self _ r2 c2 _ hlen1 hrow1

/-- C6 witness: the White pawn on (6,4) moved straight to (0,4). -/
theorem C6_witness :
    (cell new_board 6 4 = 'P' ∧ (0 : Int) = 0 →
      cell (apply_move new_board (6, 4, 0, 4)) 0 4 = 'Q') ∧
    (cell new_board 6 4 = 'p' ∧ (0 : Int) = ROWS - 1 →
      cell (apply_move new_board (6, 4, 0, 4)) 0 4 = 'q') ∧
    (¬(cell new_board 6 4 = 'P' ∧ (0 : Int) = 0) ∧
        ¬(cell new_board 6 4 = 'p' ∧ (0 : Int) = ROWS - 1) →
      cell (apply_move new_board (6, 4, 0, 4)) 0 4 = cell new_board 6 4) :=
  C6_promotion new_board 6 4 0 4 (by decide) (by decide) (by decide)

/-- C7: on a well-formed board, applying an in-bounds move with a piece on
its origin and origin ≠ destination never increases the number of non-empty
cells: the count is unchanged when the destination was empty and drops by
exactly one when it was occupied. -/
theorem C7_population (b : Board) (r1 c1 r2 c2 : Int) (hwf : WF b = true)
    (h1 : in_bounds r1 c1 = true) (h2 : in_bounds r2 c2 = true)
    (hpiece : cell b r1 c1 ≠ '.') (hne : r1 ≠ r2 ∨ c1 ≠ c2) :
    popCount (apply_move b (r1, c1, r2, c2)) ≤ popCount b ∧
    (cell b r2 c2 = '.' → popCount (apply_move b (r1, c1, r2, c2)) = popCount b) ∧
    (cell b r2 c2 ≠ '.' → popCount (apply_move b (r1, c1, r2, c2)) + 1 = popCount b) := by
  have hb1 := wf_bounds b hwf r1 c1 h1
  have hb2 := wf_bounds b hwf r2 c2 h2
  have hton := toNat_ne_of_ne r1 c1 r2 c2 h1 h2 hne
  have hA := popCount_setCell b r1 c1 '.' hb1.1 hb1.2
  rw [if_pos hpiece, if_neg (by simp)] at hA
  have hlenb1 : r2.toNat < (setCell b r1 c1 '.').length := by
    rw [length_setCell]
    exact hb2.1
  have hrowb1 : c2.toNat < ((setCell b r1 c1 '.').getD r2.toNat []).length := by
    rw [row_length_setCell]
    exact hb2.2
  have hcellb1 : cell (setCell b r1 c1 '.') r2 c2 = cell b r2 c2 :=
    cell_setCell_ne b r1 c1 r2 c2 '.' hton
  have hB := popCount_setCell (setCell b r1 c1 '.') r2 c2 (cell b r1 c1) hlenb1 hrowb1
  rw [hcellb1, if_pos hpiece] at hB
  have hlenb2 : r2.toNat < (setCell (setCell b r1 c1 '.') r2 c2 (cell b r1 c1)).length := by
    rw [length_setCell]
    exact hlenb1
  have hrowb2 : c2.toNat <
      ((setCell (setCell b r1 c1 '.') r2 c2 (cell b r1 c1)).getD r2.toNat []).length := by
    rw [row_length_setCell]
    exact hrowb1
  have hcellb2 : cell (setCell (setCell b r1 c1 '.') r2 c2 (cell b r1 c1)) r2 c2
      = cell b r1 c1 :=
    cell_setCell_self _ r2 c2 _ hlenb1 hrowb1
  have happ : popCount (apply_move b (r1, c1, r2, c2))
      = popCount (setCell (setCell b r1 c1 '.') r2 c2 (cell b r1 c1)) := by
    unfold apply_move
    dsimp only
    split
    · have hC := popCount_setCell (setCell (setCell b r1 c1 '.') r2 c2 (cell b r1 c1))
        r2 c2 'Q' hlenb2 hrowb2
      rw [hcellb2, if_pos hpiece, if_pos (by decide)] at hC
      omega
    · split
      · have hC := popCount_setCell (setCell (setCell b r1 c1 '.') r2 c2 (cell b r1 c1))
          r2 c2 'q' hlenb2 hrowb2
        rw [hcellb2, if_pos hpiece, if_pos (by decide)] at hC
        omega
      · rfl
  refine ⟨?_, ?_, ?_⟩
  · rw [happ]
    by_cases hd : cell b r2 c2 = '.'
    · rw [if_neg (by simp [hd])] at hB
      omega
    · rw [if_pos hd] at hB
      omega
  · intro hd
    rw [happ]
    rw [if_neg (by simp [hd])] at hB
    omega
  · intro hd
    rw [happ]
    rw [if_pos hd] at hB
    omega

/-- C7 witness at the initial board, move (6,4) → (4,4). -/
theorem C7_witness :
    popCount (apply_move new_board (6, 4, 4, 4)) ≤ popCount new_board ∧
    (cell new_board 4 4 = '.' →
      popCount (apply_move new_board (6, 4, 4, 4)) = popCount new_board) ∧
    (cell new_board 4 4 ≠ '.' →
      popCount (apply_move new_board (6, 4, 4, 4)) + 1 = popCount new_board) :=
  C7_population new_board 6 4 4 4 (by decide) (by decide) (by decide) (by decide)
    (Or.inl (by decide))

/-- C9 (counterexample): `apply_move` does NOT always return a board value
distinct from its input: moving from an empty origin to an empty destination
(here (3,3) → (4,3) on the initial board) returns a board equal to the
input, refuting the claimed distinctness as a statement about values. -/
theorem C9_counterexample : apply_move new_board (3, 3, 4, 3) = new_board := by decide

/-- C9 (amended): `generate_moves` and `apply_move` are pure functions of
the board value (copy-on-apply); the result of `apply_move` differs from the
input as a value whenever the origin holds a piece and origin ≠ destination,
but coincides with the input when origin and destination are both empty, so
object-level distinctness does not hold at the level of values. -/
theorem C9_amended_value_semantics (b : Board) (r1 c1 r2 c2 : Int) (hwf : WF b = true)
    (h1 : in_bounds r1 c1 = true) (h2 : in_bounds r2 c2 = true) :
    (cell b r1 c1 ≠ '.' ∧ (r1 ≠ r2 ∨ c1 ≠ c2) → apply_move b (r1, c1, r2, c2) ≠ b) ∧
    (cell b r1 c1 = '.' ∧ cell b r2 c2 = '.' → apply_move b (r1, c1, r2, c2) = b) := by
  have hb1 := wf_bounds b hwf r1 c1 h1
  constructor
  · rintro ⟨hp, hne⟩ heqb
    have hton := toNat_ne_of_ne r1 c1 r2 c2 h1 h2 hne
    have hne' : r2.toNat ≠ r1.toNat ∨ c2.toNat ≠ c1.toNat := by
      rcases hton with h | h
      · exact Or.inl (Ne.symm h)
      · exact Or.inr (Ne.symm h)
    have horig : cell (apply_move b (r1, c1, r2, c2)) r1 c1 = '.' := by
      unfold apply_move
      dsimp only
      split
      · rw [cell_setCell_ne _ r2 c2 r1 c1 _ hne', cell_setCell_ne _ r2 c2 r1 c1 _ hne']
        exact cell_setCell_self b r1 c1 '.' hb1.1 hb1.2
      · split
        · rw [cell_setCell_ne _ r2 c2 r1 c1 _ hne', cell_setCell_ne _ r2 c2 r1 c1 _ hne']
          exact cell_setCell_self b r1 c1 '.' hb1.1 hb1.2
        · rw [cell_setCell_ne _ r2 c2 r1 c1 _ hne']
          exact cell_setCell_self b r1 c1 '.' hb1.1 hb1.2
    rw [heqb] at horig
    exact hp horig
  · rintro ⟨he1, he2⟩
    unfold apply_move
    dsimp only
    rw [he1]
    rw [if_neg (by rintro ⟨hq, _⟩; exact absurd hq (by decide)),
      if_neg (by rintro ⟨hq, _⟩; exact absurd hq (by decide))]
    rw [setCell_eq_self b r1 c1 '.' he1]
    exact setCell_eq_self b r2 c2 '.' he2

/-- C9 witness at the initial board, move (6,4) → (4,4). -/
theorem C9_witness :
    (cell new_board 6 4 ≠ '.' ∧ ((6 : Int) ≠ 4 ∨ (4 : Int) ≠ 4) →
      apply_move new_board (6, 4, 4, 4) ≠ new_board) ∧
    (cell new_board 6 4 = '.' ∧ cell new_board 4 4 = '.' →
      apply_move new_board (6, 4, 4, 4) = new_board) :=
  C9_amended_value_semantics new_board 6 4 4 4 (by decide) (by decide) (by decide)

/-- C10: `apply_move` is total and raises nothing even on an empty origin:
for an in-bounds move from an empty origin cell on a well-formed board, both
the origin and the destination cells of the result are empty — any piece
that stood on the destination is silently deleted. -/
theorem C10_empty_origin_total (b : Board) (r1 c1 r2 c2 : Int) (hwf : WF b = true)
    (h1 : in_bounds r1 c1 = true) (h2 : in_bounds r2 c2 = true)
    (hemp : cell b r1 c1 = '.') :
    cell (apply_move b (r1, c1, r2, c2)) r1 c1 = '.' ∧
    cell (apply_move b (r1, c1, r2, c2)) r2 c2 = '.' := by
  have hb1 := wf_bounds b hwf r1 c1 h1
  have hb2 := wf_bounds b hwf r2 c2 h2
  unfold apply_move
  dsimp only
  rw [hemp]
  rw [if_neg (by rintro ⟨hq, _⟩; exact absurd hq (by decide)),
    if_neg (by rintro ⟨hq, _⟩; exact absurd hq (by decide))]
  constructor
  · by_cases heq : r1.toNat = r2.toNat ∧ c1.toNat = c2.toNat
    · have hsame : cell (setCell (setCell b r1 c1 '.') r2 c2 '.') r1 c1
          = cell (setCell (setCell b r1 c1 '.') r2 c2 '.') r2 c2 := by
        unfold cell
        rw [heq.1, heq.2]
      rw [hsame]
      apply cell_setCell_self
      · rw [length_setCell]
        exact hb2.1
      · rw [row_length_setCell]
        exact hb2.2
    · have hne : r2.toNat ≠ r1.toNat ∨ c2.toNat ≠ c1.toNat := by
        rcases not_and_or.mp heq with h | h
        · exact Or.inl (Ne.symm h)
        · exact Or.inr (Ne.symm h)
      rw [cell_setCell_ne _ r2 c2 r1 c1 _ hne]
      exact cell_setCell_self b r1 c1 '.' hb1.1 hb1.2
  · apply cell_setCell_self
    · rw [length_setCell]
      exact hb2.1
    · rw [row_length_setCell]
      exact hb2.2

/-- C10 witness: empty-origin move (3,3) → (4,3) on the initial board. -/
theorem C10_witness :
    cell (apply_move new_board (3, 3, 4, 3)) 3 3 = '.' ∧
    cell (apply_move new_board (3, 3, 4, 3)) 4 3 = '.' :=
  C10_empty_origin_total new_board 3 3 4 3 (by decide) (by decide) (by decide) (by decide)

end Chess
